import Mathlib

/-!
Verification of the `oglob` library (src/oglob/__init__.py): a lazy,
predicate-composable file-tree filter.  We shallowly embed the path model,
the predicate-pattern algebra (`PathPattern` and its subclasses), the
per-query compute cache (`_ComputeCache`), and the traversal engine
(`_unsafe_files_impl` / `_unsafe_dir_files` / `files.__new__`).

Modelling conventions:
* A `pathlib.Path` value is `PPath`: an absolute flag plus the list of
  name segments.  `Path.absolute()` prepends the process working
  directory (a parameter `cwd`, the segment list of the absolute cwd)
  without any normalization, exactly as `pathlib` does.
* User predicates may raise: they are functions into `Option Bool`,
  where `none` models an exception escaping the callable.
* `_run` mutates the cache, so it is embedded in state-passing style:
  `run : PathPattern → ComputeCache → Option Bool × ComputeCache`.
  The cache in the result reflects mutations done before a raise
  (every leaf finishes its cache writes before calling the predicate).
* In Python, `OrPath`, `AndPath` and `NotPath` are dataclasses that do
  NOT inherit `PathPattern`; membership in class `PathPattern` is the
  `isPathPatternInstance` predicate below, and the `|`, `&`, `~`, `-`
  operators are embedded as `Except`-valued functions reproducing
  Python's operator dispatch (`TypeError` when the left operand lacks
  the dunder method, `AssertionError` from `_check_arg`).
-/

/-- A `pathlib` pure path: whether it is absolute, and its name segments
(without the leading root entry). -/
structure PPath where
  isAbs : Bool
  segs : List String
deriving DecidableEq, Repr

namespace PPath

/-- `pathlib.PurePath.name`: the final component, `""` when there is none. -/
def name (p : PPath) : String :=
  p.segs.getLastD ""

/-- `pathlib.PurePath.parts`: for an absolute path the root marker followed
by the segments, else just the segments. -/
def parts (p : PPath) : List String :=
  if p.isAbs then "/" :: p.segs else p.segs

/-- `pathlib.Path.absolute()`: prepend the current working directory to a
relative path, without normalization.  `cwd` is the segment list of the
(absolute) working directory. -/
def absoluteIn (cwd : List String) (p : PPath) : PPath :=
  if p.isAbs then p else ⟨true, cwd ++ p.segs⟩

/-- `pathlib.PurePath.as_posix()`: forward-slash string form. -/
def asPosix (p : PPath) : String :=
  if p.isAbs then "/" ++ String.intercalate "/" p.segs
  else if p.segs.isEmpty then "." else String.intercalate "/" p.segs

/-- `curdir / name` for a plain child name, as produced by `iterdir`. -/
def child (p : PPath) (n : String) : PPath :=
  ⟨p.isAbs, p.segs ++ [n]⟩

end PPath

/-- `_ComputeCache`: mutable per-query memo (`base`, `absolute`, `fullpath`). -/
structure ComputeCache where
  base : PPath
  absolute : Option PPath
  fullpath : Option String
deriving DecidableEq, Repr

/-- `_ComputeCache.reset`: set `base` to the new entry and clear both
derived fields unconditionally. -/
def ComputeCache.reset (_c : ComputeCache) (p : PPath) : ComputeCache :=
  ⟨p, none, none⟩

/-- The predicate-pattern tree.  Leaves are the four concrete
`PathPattern` subclasses (`Path`, `File`, `Full`, `Sec`); the composite
dataclasses `OrPath`, `AndPath`, `NotPath` hold sub-trees.  A leaf's
user callable returns `none` when it raises. -/
inductive PathPattern where
  | path (pred : PPath → Option Bool)
  | file (pred : String → Option Bool)
  | full (pred : String → Option Bool)
  | sec (pred : List String → Option Bool) (absolute : Bool)
  | orPath (lhs rhs : PathPattern)
  | andPath (lhs rhs : PathPattern)
  | notPath (pred : PathPattern)

/-- `isinstance(x, PathPattern)`: true exactly for the four leaf classes;
the composite dataclasses do not inherit `PathPattern` in the source. -/
def isPathPatternInstance : PathPattern → Bool
  | .path _ => true
  | .file _ => true
  | .full _ => true
  | .sec _ _ => true
  | .orPath _ _ => false
  | .andPath _ _ => false
  | .notPath _ => false

/-- Errors that pattern combination can raise: `TypeError` from Python
operator dispatch (left operand's class lacks the operator method),
`AssertionError` from `_check_arg`. -/
inductive CombineError where
  | typeError
  | assertionError
deriving DecidableEq, Repr

/-- `p | q`: only class `PathPattern` defines `__or__` (and nothing defines
`__ror__`), so a composite left operand is a `TypeError`; `_check_arg`
asserts the right operand is a `PathPattern` instance. -/
def op_or (p q : PathPattern) : Except CombineError PathPattern :=
  if isPathPatternInstance p then
    if isPathPatternInstance q then .ok (.orPath p q)
    else .error .assertionError
  else .error .typeError

/-- `p & q`: same dispatch and check as `|`, building `AndPath`. -/
def op_and (p q : PathPattern) : Except CombineError PathPattern :=
  if isPathPatternInstance p then
    if isPathPatternInstance q then .ok (.andPath p q)
    else .error .assertionError
  else .error .typeError

/-- `~p`: only class `PathPattern` defines `__invert__`. -/
def op_invert (p : PathPattern) : Except CombineError PathPattern :=
  if isPathPatternInstance p then .ok (.notPath p)
  else .error .typeError

/-- `p - q`: `__sub__` runs `_check_arg(other)` then returns
`self & ~other`, i.e. `op_and p (NotPath q)` after `~q` succeeds. -/
def op_sub (p q : PathPattern) : Except CombineError PathPattern :=
  if isPathPatternInstance p then
    if isPathPatternInstance q then
      op_and p (.notPath q)
    else .error .assertionError
  else .error .typeError

/-- `_run(cache)` of every pattern class, in state-passing style.
`none` in the first component models an exception propagating out of a
user callable; the returned cache holds the writes made before it. -/
def PathPattern.run (cwd : List String) :
    PathPattern → ComputeCache → Option Bool × ComputeCache
  | .path pred, c => (pred c.base, c)
  | .file pred, c => (pred c.base.name, c)
  | .full pred, c =>
    match c.fullpath with
    | some fp => (pred fp, c)
    | none =>
      match c.absolute with
      | some a => (pred a.asPosix, { c with fullpath := some a.asPosix })
      | none =>
        let a := c.base.absoluteIn cwd
        (pred a.asPosix, { c with absolute := some a, fullpath := some a.asPosix })
  | .sec pred useAbs, c =>
    if useAbs then
      match c.absolute with
      | some a => (pred a.parts, c)
      | none =>
        let a := c.base.absoluteIn cwd
        (pred a.parts, { c with absolute := some a })
    else (pred c.base.parts, c)
  | .orPath l r, c =>
    match l.run cwd c with
    | (some true, c1) => (some true, c1)
    | (some false, c1) => r.run cwd c1
    | (none, c1) => (none, c1)
  | .andPath l r, c =>
    match l.run cwd c with
    | (some false, c1) => (some false, c1)
    | (some true, c1) => r.run cwd c1
    | (none, c1) => (none, c1)
  | .notPath p, c =>
    match p.run cwd c with
    | (some b, c1) => (some (!b), c1)
    | (none, c1) => (none, c1)

mutual

/-- One filesystem entry as the traversal observes it: its name, whether
`is_symlink()` holds, and — when `is_dir()` holds — its (link-resolved)
children in `iterdir` order.  Cyclic symlink structures fall outside the
inductive type, matching the spec's non-goal of cycle detection. -/
inductive Entry where
  | file (name : String) (isLink : Bool)
  | dir (name : String) (isLink : Bool) (children : EntryList)

/-- The `cons`-list of sibling entries, mutually inductive with `Entry`
so that the traversal is structurally recursive. -/
inductive EntryList where
  | nil
  | cons (e : Entry) (rest : EntryList)

end

deriving instance DecidableEq for Except

/-- `Path.is_symlink()` on an entry. -/
def Entry.isLink : Entry → Bool
  | .file _ l => l
  | .dir _ l _ => l

/-- The name of an entry, as `iterdir` reports it. -/
def Entry.name : Entry → String
  | .file n _ => n
  | .dir n _ _ => n

/-- Keep only the entries that are not symbolic links. -/
def EntryList.filterNotLink : EntryList → EntryList
  | .nil => .nil
  | .cons e rest =>
    if e.isLink then rest.filterNotLink else .cons e rest.filterNotLink

/-- `_Config` minus the mutable cache, which is threaded explicitly. -/
structure Config where
  pattern : PathPattern
  recursive : Bool
  include_dir : Bool
  follow_symlinks : Bool

/-- `_unsafe_dir_files`: walk the children of the directory at path `p`,
yielding matches in `iterdir` order; `none` when a user predicate raised. -/
def dirFiles (cwd : List String) (cfg : Config) :
    PPath → EntryList → ComputeCache → Option (List PPath × ComputeCache)
  | _, .nil, c => some ([], c)
  | p, .cons (.file n lnk) rest, c =>
    if !cfg.follow_symlinks && lnk then dirFiles cwd cfg p rest c
    else
      match cfg.pattern.run cwd (c.reset (p.child n)) with
      | (none, _) => none
      | (some b, c1) =>
        match dirFiles cwd cfg p rest c1 with
        | none => none
        | some (ys, c2) => some ((if b then [p.child n] else []) ++ ys, c2)
  | p, .cons (.dir n lnk cs) rest, c =>
    if !cfg.follow_symlinks && lnk then dirFiles cwd cfg p rest c
    else
      match
        (if cfg.include_dir then
          match cfg.pattern.run cwd (c.reset (p.child n)) with
          | (none, _) => none
          | (some b, c1) => some ((if b then [p.child n] else []), c1)
        else some ([], c)) with
      | none => none
      | some (hd, c1) =>
        match
          (if cfg.recursive then dirFiles cwd cfg (p.child n) cs c1
           else some ([], c1)) with
        | none => none
        | some (zs, c2) =>
          match dirFiles cwd cfg p rest c2 with
          | none => none
          | some (ys, c3) => some (hd ++ zs ++ ys, c3)

/-- `_unsafe_files_impl`: handle the root entry (whose path is `rootPath`),
then delegate directory listing to `dirFiles`. -/
def filesImpl (cwd : List String) (cfg : Config) (root : Entry)
    (rootPath : PPath) (c : ComputeCache) : Option (List PPath × ComputeCache) :=
  if !cfg.follow_symlinks && root.isLink then some ([], c)
  else
    match root with
    | .dir _ _ cs =>
      match
        (if cfg.include_dir then
          match cfg.pattern.run cwd (c.reset rootPath) with
          | (none, _) => none
          | (some b, c1) => some ((if b then [rootPath] else []), c1)
        else some ([], c)) with
      | none => none
      | some (hd, c1) =>
        match dirFiles cwd cfg rootPath cs c1 with
        | none => none
        | some (ys, c2) => some (hd ++ ys, c2)
    | .file _ _ =>
      match cfg.pattern.run cwd (c.reset rootPath) with
      | (none, _) => none
      | (some b, c1) => some ((if b then [rootPath] else []), c1)

/-- Errors `files` can surface: the eager `FileNotFoundError` from
`files.__new__`, or an exception escaping a user predicate mid-iteration. -/
inductive FilesError where
  | fileNotFound
  | predicateRaised
deriving DecidableEq, Repr

/-- The suspended generator returned by `files.__new__` for an existing
root: the bound root entry and path, the configuration, and the fresh
cache — nothing has been evaluated yet. -/
structure LazyFiles where
  root : Entry
  rootPath : PPath
  cfg : Config
  cache : ComputeCache

/-- `files.__new__`: eagerly validate existence (`rootEntry = none` means
the root does not exist), build the configuration and the cache, and
return the unevaluated traversal (`none` inside `ok` is `iter(())`). -/
def files_new (root : PPath) (rootEntry : Option Entry) (pattern : PathPattern)
    (recursive include_dir missing_ok follow_symlinks : Bool) :
    Except FilesError (Option LazyFiles) :=
  match rootEntry with
  | none =>
    if missing_ok then .ok none
    else .error .fileNotFound
  | some e =>
    .ok (some ⟨e, root, ⟨pattern, recursive, include_dir, follow_symlinks⟩,
      ⟨root, none, none⟩⟩)

/-- Exhausting the sequence returned by `files.__new__`: the only failure
iteration can produce is a raising user predicate. -/
def LazyFiles.iterate (cwd : List String) : Option LazyFiles → Option (List PPath)
  | none => some []
  | some lf => (filesImpl cwd lf.cfg lf.root lf.rootPath lf.cache).map (·.1)

/-- `files(root, pattern, ...)` followed by exhausting the result. -/
def files (cwd : List String) (root : PPath) (rootEntry : Option Entry)
    (pattern : PathPattern)
    (recursive include_dir missing_ok follow_symlinks : Bool) :
    Except FilesError (List PPath) :=
  match files_new root rootEntry pattern recursive include_dir missing_ok
      follow_symlinks with
  | .error e => .error e
  | .ok lz =>
    match LazyFiles.iterate cwd lz with
    | none => .error .predicateRaised
    | some ys => .ok ys

def tmpDir1 : EntryList :=
  .cons (.file "file3.py" false) (.cons (.file "file4.jpg" false)
    (.cons (.dir "dir2" false (.cons (.file "file5.c" false) .nil)) .nil))

def tmpRoot : Entry :=
  .dir "tmp" false
    (.cons (.file "file1.py" false) (.cons (.file "file2.txt" false)
      (.cons (.dir "dir1" false tmpDir1)
        (.cons (.dir "link_dir" true tmpDir1) .nil))))

/-- A leaf pattern whose callable always returns `True`. -/
def pTrue : PathPattern := .file fun _ => some true

/-- A leaf pattern whose callable always returns `False`. -/
def pFalse : PathPattern := .file fun _ => some false

/-- A leaf pattern whose callable always raises. -/
def pRaise : PathPattern := .file fun _ => none

/-- A sample relative path. -/
def pp0 : PPath := ⟨false, ["x"]⟩

/-- A freshly reset cache at `pp0`. -/
def cache0 : ComputeCache := ⟨pp0, none, none⟩

/-- The derived fields, when set, hold exactly the values the current
`base` would produce: `absolute` its absolutization, `fullpath` the
forward-slash form of that absolutization. -/
def CacheConsistent (cwd : List String) (c : ComputeCache) : Prop :=
  (∀ a, c.absolute = some a → a = c.base.absoluteIn cwd)
  ∧ (∀ s, c.fullpath = some s → s = (c.base.absoluteIn cwd).asPosix)

/-- The permitted cache transitions of one evaluation: `base` untouched,
and each derived field either untouched or set from unset to the value
derived from the (unchanged) `base`. -/
def CacheEvolves (cwd : List String) (c c' : ComputeCache) : Prop :=
  c'.base = c.base
  ∧ (c'.absolute = c.absolute ∨
      (c.absolute = none ∧ c'.absolute = some (c.base.absoluteIn cwd)))
  ∧ (c'.fullpath = c.fullpath ∨
      (c.fullpath = none ∧ c'.fullpath = some ((c.base.absoluteIn cwd).asPosix)))

/-- Model validation against `test_recursive_search` in the suite: a
recursive name query with `follow_symlinks=False` finds `file1.py` and
`dir1/file3.py` only. -/
lemma model_matches_recursive_search_test :
    files [] ⟨true, ["tmp"]⟩ (some tmpRoot)
      (.file fun f => some (f == "file1.py" || f == "file3.py")) true false true false =
    .ok [⟨true, ["tmp", "file1.py"]⟩, ⟨true, ["tmp", "dir1", "file3.py"]⟩] := by
  decide

/-- Model validation against `test_recursive_search`: the same query with
`follow_symlinks=True` additionally reaches `file3.py` through
`link_dir`. -/
lemma model_matches_follow_symlinks_test :
    files [] ⟨true, ["tmp"]⟩ (some tmpRoot)
      (.file fun f => some (f == "file1.py" || f == "file3.py")) true false true true =
    .ok [⟨true, ["tmp", "file1.py"]⟩, ⟨true, ["tmp", "dir1", "file3.py"]⟩,
         ⟨true, ["tmp", "link_dir", "file3.py"]⟩] := by
  decide

/-- Claim C1: refuted — it is a bug in the code.  `OrPath`, `AndPath` and
`NotPath` do not inherit `PathPattern`, although the code's own
documentation advertises free composition with `|`, `&`, `~`, `-`.
Consequently a composite operand fails `_check_arg` (AssertionError) or
lacks the operator method entirely (TypeError), and `p - q` raises
`AssertionError` for every `p` and `q` because its `self & ~other` hands
a `NotPath` to `__and__`.  Evaluated at the failing inputs: two leaves
combine once, but the result cannot be combined further, and `-` fails
even on leaves. -/
theorem combinators_on_composites_fail :
    op_or pTrue pFalse = .ok (.orPath pTrue pFalse)
  ∧ op_or (.orPath pTrue pFalse) pTrue = .error .typeError
  ∧ op_and pTrue (.orPath pTrue pFalse) = .error .assertionError
  ∧ op_invert (.orPath pTrue pFalse) = .error .typeError
  ∧ op_sub pTrue pFalse = .error .assertionError :=
  ⟨rfl, rfl, rfl, rfl, rfl⟩

/-- Claim C2 counterexample: at `p = pTrue`, `q = pFalse` and cache
`cache0`, `p` matches the entry and `q` does not, so the claim requires
`p - q` to match it — but `p - q` raises `AssertionError` at construction
time and produces no evaluable node at all. -/
theorem sub_combinator_cex :
    (PathPattern.run [] pTrue cache0).1 = some true
  ∧ (PathPattern.run [] pFalse cache0).1 = some false
  ∧ op_sub pTrue pFalse = .error .assertionError :=
  ⟨rfl, rfl, rfl⟩

/-- Claim C2 (amended): for all predicate nodes `p`, `q` and every cache
state, when both evaluations complete, the `Or` node evaluates to the
boolean OR of `p` and `q`, the `And` node to their AND, the `Not` node to
the negation of `p`, and the node `And(p, Not q)` — the documented meaning
of `p - q` — matches an entry iff `p` matches it and `q` does not. -/
theorem run_boolean_algebra (cwd : List String) (p q : PathPattern)
    (c c1 c2 : ComputeCache) (a b : Bool)
    (hp : p.run cwd c = (some a, c1)) (hq : q.run cwd c1 = (some b, c2)) :
    (PathPattern.orPath p q).run cwd c = (some (a || b), if a then c1 else c2)
  ∧ (PathPattern.andPath p q).run cwd c = (some (a && b), if a then c2 else c1)
  ∧ (PathPattern.notPath p).run cwd c = (some (!a), c1)
  ∧ (PathPattern.andPath p (.notPath q)).run cwd c =
      (some (a && !b), if a then c2 else c1) := by
  cases a <;> cases b <;> simp [PathPattern.run, hp, hq]

/-- Witness for `run_boolean_algebra` at `p = pTrue`, `q = pFalse`,
cache `cache0`. -/
theorem run_boolean_algebra_witness :
    (PathPattern.orPath pTrue pFalse).run [] cache0 = (some true, cache0)
  ∧ (PathPattern.andPath pTrue pFalse).run [] cache0 = (some false, cache0)
  ∧ (PathPattern.notPath pTrue).run [] cache0 = (some false, cache0)
  ∧ (PathPattern.andPath pTrue (.notPath pFalse)).run [] cache0 =
      (some true, cache0) := by
  have h := run_boolean_algebra [] pTrue pFalse cache0 cache0 cache0 true false
    rfl rfl
  simpa using h

/-- Claim C3: `OrPath._run` short-circuits — when the left branch
evaluates to true the whole `Or` returns true with the left branch's
cache, and the right branch (which may raise) is never consulted;
symmetrically `AndPath._run` returns false when the left branch does. -/
theorem run_short_circuit (cwd : List String) (l r : PathPattern)
    (c c1 : ComputeCache) :
    (l.run cwd c = (some true, c1) →
      (PathPattern.orPath l r).run cwd c = (some true, c1))
  ∧ (l.run cwd c = (some false, c1) →
      (PathPattern.andPath l r).run cwd c = (some false, c1)) := by
  constructor <;> intro h <;> simp [PathPattern.run, h]

/-- Witness for `run_short_circuit` with a right-hand pattern whose
callable raises: no exception surfaces once the left branch decided. -/
theorem run_short_circuit_witness :
    (PathPattern.orPath pTrue pRaise).run [] cache0 = (some true, cache0)
  ∧ (PathPattern.andPath pFalse pRaise).run [] cache0 = (some false, cache0) :=
  ⟨(run_short_circuit [] pTrue pRaise cache0 cache0).1 rfl,
   (run_short_circuit [] pFalse pRaise cache0 cache0).2 rfl⟩

/-- Claim C4: `reset` clears `absolute` and `fullpath` unconditionally;
a `Full` leaf reuses a stored `fullpath` verbatim (no recomputation, no
mutation), reuses a stored `absolute` when only `fullpath` is missing and
stores `fullpath` as its forward-slash string form, and computes both
derived fields from `base` when neither is stored; a `Sec` leaf with
`useAbsolute` reuses a stored `absolute` verbatim and stores it when
missing.  Hence each derived field is computed at most once per reset. -/
theorem cache_memoization (cwd : List String) (c : ComputeCache) (p : PPath) :
    ComputeCache.reset c p = ⟨p, none, none⟩
  ∧ (∀ pred fp c', c'.fullpath = some fp →
      PathPattern.run cwd (.full pred) c' = (pred fp, c'))
  ∧ (∀ pred a c', c'.fullpath = none → c'.absolute = some a →
      PathPattern.run cwd (.full pred) c' =
        (pred a.asPosix, { c' with fullpath := some a.asPosix }))
  ∧ (∀ pred c', c'.fullpath = none → c'.absolute = none →
      PathPattern.run cwd (.full pred) c' =
        (pred (c'.base.absoluteIn cwd).asPosix,
         ⟨c'.base, some (c'.base.absoluteIn cwd),
          some (c'.base.absoluteIn cwd).asPosix⟩))
  ∧ (∀ pred a c', c'.absolute = some a →
      PathPattern.run cwd (.sec pred true) c' = (pred a.parts, c'))
  ∧ (∀ pred c', c'.absolute = none →
      PathPattern.run cwd (.sec pred true) c' =
        (pred (c'.base.absoluteIn cwd).parts,
         { c' with absolute := some (c'.base.absoluteIn cwd) })) := by
  refine ⟨rfl, ?_, ?_, ?_, ?_, ?_⟩
  · intro pred fp c' h
    obtain ⟨b, abs, fpf⟩ := c'
    simp only at h
    subst h
    rfl
  · intro pred a c' h1 h2
    obtain ⟨b, abs, fpf⟩ := c'
    simp only at h1 h2
    subst h1; subst h2
    rfl
  · intro pred c' h1 h2
    obtain ⟨b, abs, fpf⟩ := c'
    simp only at h1 h2
    subst h1; subst h2
    rfl
  · intro pred a c' h
    obtain ⟨b, abs, fpf⟩ := c'
    simp only at h
    subst h
    rfl
  · intro pred c' h
    obtain ⟨b, abs, fpf⟩ := c'
    simp only at h
    subst h
    rfl

/-- Witness for `cache_memoization`: a stored `fullpath` is reused
verbatim, and a stored `absolute` is turned into the stored slash form. -/
theorem cache_memoization_witness :
    PathPattern.run [] (.full fun s => some (s == "hit")) ⟨pp0, none, some "hit"⟩ =
      (some true, ⟨pp0, none, some "hit"⟩)
  ∧ PathPattern.run [] (.full fun s => some (s == "/y")) ⟨pp0, some ⟨true, ["y"]⟩, none⟩ =
      (some true, ⟨pp0, some ⟨true, ["y"]⟩, some "/y"⟩)
  ∧ PathPattern.run [] (.sec (fun ps => some (ps == ["/", "y"])) true)
      ⟨pp0, some ⟨true, ["y"]⟩, none⟩ =
      (some true, ⟨pp0, some ⟨true, ["y"]⟩, none⟩) := by
  refine ⟨?_, ?_, ?_⟩
  · have h := (cache_memoization [] cache0 pp0).2.1
      (fun s => some (s == "hit")) "hit" ⟨pp0, none, some "hit"⟩ rfl
    simpa using h
  · have h := (cache_memoization [] cache0 pp0).2.2.1
      (fun s => some (s == "/y")) ⟨true, ["y"]⟩ ⟨pp0, some ⟨true, ["y"]⟩, none⟩
      rfl rfl
    simpa [PPath.asPosix] using h
  · have h := (cache_memoization [] cache0 pp0).2.2.2.2.1
      (fun ps => some (ps == ["/", "y"])) ⟨true, ["y"]⟩
      ⟨pp0, some ⟨true, ["y"]⟩, none⟩ rfl
    simpa [PPath.parts] using h

lemma cacheEvolves_refl (cwd : List String) (c : ComputeCache) :
    CacheEvolves cwd c c :=
  ⟨rfl, .inl rfl, .inl rfl⟩

lemma cacheEvolves_trans {cwd : List String} {c c1 c2 : ComputeCache}
    (h1 : CacheEvolves cwd c c1) (h2 : CacheEvolves cwd c1 c2) :
    CacheEvolves cwd c c2 := by
  obtain ⟨hb1, ha1, hf1⟩ := h1
  obtain ⟨hb2, ha2, hf2⟩ := h2
  refine ⟨hb2.trans hb1, ?_, ?_⟩
  · rcases ha2 with h | ⟨hn, hs⟩
    · rw [h]; exact ha1
    · rcases ha1 with h' | ⟨hn', hs'⟩
      · exact .inr ⟨h' ▸ hn, by rw [hs, hb1]⟩
      · rw [hn] at hs'; cases hs'
  · rcases hf2 with h | ⟨hn, hs⟩
    · rw [h]; exact hf1
    · rcases hf1 with h' | ⟨hn', hs'⟩
      · exact .inr ⟨h' ▸ hn, by rw [hs, hb1]⟩
      · rw [hn] at hs'; cases hs'

/-- Every `_run` makes only permitted cache transitions and preserves
consistency of the derived fields. -/
lemma run_cache_evolves (cwd : List String) (pat : PathPattern) :
    ∀ c : ComputeCache, CacheConsistent cwd c →
      CacheEvolves cwd c (pat.run cwd c).2
      ∧ CacheConsistent cwd (pat.run cwd c).2 := by
  induction pat with
  | path pred => exact fun c h => ⟨cacheEvolves_refl cwd c, h⟩
  | file pred => exact fun c h => ⟨cacheEvolves_refl cwd c, h⟩
  | full pred =>
    intro c h
    obtain ⟨b, abs, fpf⟩ := c
    match fpf with
    | some fp => exact ⟨cacheEvolves_refl cwd _, h⟩
    | none =>
      match abs with
      | some a =>
        have ha : a = PPath.absoluteIn cwd b := h.1 a rfl
        have hrun : PathPattern.run cwd (.full pred) ⟨b, some a, none⟩ =
            (pred a.asPosix, ⟨b, some a, some a.asPosix⟩) := rfl
        rw [hrun]
        exact ⟨⟨rfl, .inl rfl, .inr ⟨rfl, by rw [ha]⟩⟩,
          ⟨fun x hx => by cases hx; exact ha, fun s hs => by cases hs; rw [ha]⟩⟩
      | none =>
        have hrun : PathPattern.run cwd (.full pred) ⟨b, none, none⟩ =
            (pred (PPath.absoluteIn cwd b).asPosix,
             ⟨b, some (PPath.absoluteIn cwd b),
              some (PPath.absoluteIn cwd b).asPosix⟩) := rfl
        rw [hrun]
        exact ⟨⟨rfl, .inr ⟨rfl, rfl⟩, .inr ⟨rfl, rfl⟩⟩,
          ⟨fun x hx => by cases hx; rfl, fun s hs => by cases hs; rfl⟩⟩
  | sec pred useAbs =>
    intro c h
    obtain ⟨b, abs, fpf⟩ := c
    match useAbs with
    | false => exact ⟨cacheEvolves_refl cwd _, h⟩
    | true =>
      match abs with
      | some a => exact ⟨cacheEvolves_refl cwd _, h⟩
      | none =>
        have hrun : PathPattern.run cwd (.sec pred true) ⟨b, none, fpf⟩ =
            (pred (PPath.absoluteIn cwd b).parts,
             ⟨b, some (PPath.absoluteIn cwd b), fpf⟩) := rfl
        rw [hrun]
        exact ⟨⟨rfl, .inr ⟨rfl, rfl⟩, .inl rfl⟩,
          ⟨fun x hx => by cases hx; rfl, fun s hs => h.2 s hs⟩⟩
  | orPath l r ihl ihr =>
    intro c h
    have hl := ihl c h
    simp only [PathPattern.run]
    rcases hv : l.run cwd c with ⟨ob, c1⟩
    rw [hv] at hl
    match ob with
    | none => exact hl
    | some true => exact hl
    | some false =>
      have hr := ihr c1 hl.2
      exact ⟨cacheEvolves_trans hl.1 hr.1, hr.2⟩
  | andPath l r ihl ihr =>
    intro c h
    have hl := ihl c h
    simp only [PathPattern.run]
    rcases hv : l.run cwd c with ⟨ob, c1⟩
    rw [hv] at hl
    match ob with
    | none => exact hl
    | some false => exact hl
    | some true =>
      have hr := ihr c1 hl.2
      exact ⟨cacheEvolves_trans hl.1 hr.1, hr.2⟩
  | notPath p ih =>
    intro c h
    have hp := ih c h
    simp only [PathPattern.run]
    rcases hv : p.run cwd c with ⟨ob, c1⟩
    rw [hv] at hp
    match ob with
    | none => exact hp
    | some b => exact hp

/-- Claim C10: evaluating any pattern never changes the cache's `base`,
and the only mutations are setting `absolute` or `fullpath` from unset to
the value derived from the unchanged `base` (for a consistent cache, as
every cache arising from `reset` is). -/
theorem run_cache_frame (cwd : List String) (pat : PathPattern)
    (c : ComputeCache) (h : CacheConsistent cwd c) :
    ((pat.run cwd c).2.base = c.base)
  ∧ ((pat.run cwd c).2.absolute = c.absolute ∨
      (c.absolute = none ∧
        (pat.run cwd c).2.absolute = some (c.base.absoluteIn cwd)))
  ∧ ((pat.run cwd c).2.fullpath = c.fullpath ∨
      (c.fullpath = none ∧
        (pat.run cwd c).2.fullpath = some ((c.base.absoluteIn cwd).asPosix))) :=
  (run_cache_evolves cwd pat c h).1

/-- Witness for `run_cache_frame`: a `Full` leaf evaluated from a fresh
cache leaves `base` unchanged. -/
theorem run_cache_frame_witness :
    ((PathPattern.full fun _ => some true).run [] cache0).2.base = cache0.base :=
  (run_cache_frame [] (.full fun _ => some true) cache0
    (by simp [CacheConsistent, cache0])).1

/-- Claim C6: on a nonexistent root (`rootEntry = none`), `missing_ok=true`
returns the empty sequence and `missing_ok=false` fails with the
not-found error; `files_new` decides this directly, so no traversal
happens in either case. -/
theorem files_missing_root (cwd : List String) (root : PPath)
    (pattern : PathPattern) (r i f : Bool) :
    files cwd root none pattern r i true f = .ok []
  ∧ files cwd root none pattern r i false f = .error .fileNotFound
  ∧ files_new root none pattern r i true f = .ok none
  ∧ files_new root none pattern r i false f = .error .fileNotFound :=
  ⟨rfl, rfl, rfl, rfl⟩

/-- Claim C9: `files.__new__` validates the root and builds the cache and
configuration eagerly — for an existing root it always returns the still
unevaluated traversal, and the not-found error is produced by the call
itself (only for a missing root with `missing_ok=false`); iterating the
returned sequence can only succeed or surface a raising predicate, never
not-found. -/
theorem files_new_eager_validation (cwd : List String) (root : PPath)
    (e : Entry) (pattern : PathPattern) (r i m f : Bool) :
    files_new root (some e) pattern r i m f =
      .ok (some ⟨e, root, ⟨pattern, r, i, f⟩, ⟨root, none, none⟩⟩)
  ∧ files_new root none pattern r i false f = .error .fileNotFound
  ∧ ((∃ ys, files cwd root (some e) pattern r i m f = .ok ys) ∨
      files cwd root (some e) pattern r i m f = .error .predicateRaised) := by
  refine ⟨rfl, rfl, ?_⟩
  rcases h : LazyFiles.iterate cwd
      (some ⟨e, root, ⟨pattern, r, i, f⟩, ⟨root, none, none⟩⟩) with _ | ys
  · right; simp [files, files_new, h]
  · left; exact ⟨ys, by simp [files, files_new, h]⟩

/-- Claim C7: a query whose root is a plain (non-symlink) file yields
exactly that file when the pattern matches it and nothing when it does
not, and the result does not depend on `recursive` or `include_dir`. -/
theorem files_plain_file_root (cwd : List String) (rootPath : PPath)
    (n : String) (pattern : PathPattern) (r i m f r2 i2 : Bool)
    (c1 : ComputeCache) :
    (pattern.run cwd ⟨rootPath, none, none⟩ = (some true, c1) →
      files cwd rootPath (some (.file n false)) pattern r i m f = .ok [rootPath])
  ∧ (pattern.run cwd ⟨rootPath, none, none⟩ = (some false, c1) →
      files cwd rootPath (some (.file n false)) pattern r i m f = .ok [])
  ∧ files cwd rootPath (some (.file n false)) pattern r i m f =
      files cwd rootPath (some (.file n false)) pattern r2 i2 m f := by
  refine ⟨?_, ?_, ?_⟩
  · intro h
    simp [files, files_new, LazyFiles.iterate, filesImpl, ComputeCache.reset,
      Entry.isLink, h]
  · intro h
    simp [files, files_new, LazyFiles.iterate, filesImpl, ComputeCache.reset,
      Entry.isLink, h]
  · rcases hv : pattern.run cwd ⟨rootPath, none, none⟩ with ⟨ob, cx⟩
    simp [files, files_new, LazyFiles.iterate, filesImpl, ComputeCache.reset,
      Entry.isLink, hv]

/-- Witness for `files_plain_file_root`: a matching query on a file root
yields exactly that file; a non-matching one yields nothing. -/
theorem files_plain_file_root_witness :
    files [] ⟨true, ["a", "f.py"]⟩ (some (.file "f.py" false)) pTrue
      true true true true = .ok [⟨true, ["a", "f.py"]⟩]
  ∧ files [] ⟨true, ["a", "f.py"]⟩ (some (.file "f.py" false)) pFalse
      false false true true = .ok [] :=
  ⟨(files_plain_file_root [] ⟨true, ["a", "f.py"]⟩ "f.py" pTrue
      true true true true true true ⟨⟨true, ["a", "f.py"]⟩, none, none⟩).1 rfl,
   (files_plain_file_root [] ⟨true, ["a", "f.py"]⟩ "f.py" pFalse
      false false true true true true ⟨⟨true, ["a", "f.py"]⟩, none, none⟩).2.1 rfl⟩

/-- With `follow_symlinks=false`, `_unsafe_dir_files` behaves as if every
symlinked direct child were absent from the listing: skipped entries are
neither yielded nor descended into. -/
lemma dirFiles_skip_links (cwd : List String) (cfg : Config)
    (hf : cfg.follow_symlinks = false) (p : PPath) :
    ∀ (es : EntryList) (c : ComputeCache),
      dirFiles cwd cfg p es c = dirFiles cwd cfg p es.filterNotLink c
  | .nil, _ => rfl
  | .cons (.file n lnk) rest, c => by
    cases lnk with
    | true =>
      simp [dirFiles, EntryList.filterNotLink, Entry.isLink, hf,
        dirFiles_skip_links cwd cfg hf p rest]
    | false =>
      simp [dirFiles, EntryList.filterNotLink, Entry.isLink, hf,
        dirFiles_skip_links cwd cfg hf p rest]
  | .cons (.dir n lnk cs) rest, c => by
    cases lnk with
    | true =>
      simp [dirFiles, EntryList.filterNotLink, Entry.isLink, hf,
        dirFiles_skip_links cwd cfg hf p rest]
    | false =>
      simp [dirFiles, EntryList.filterNotLink, Entry.isLink, hf,
        dirFiles_skip_links cwd cfg hf p rest]

/-- Claim C5: with `follow_symlinks=false` a symlinked root yields nothing
and stops, and directory listing treats symlinked children exactly as if
they were filtered out (never yielded, never descended into — so nothing
beneath them can appear); with `follow_symlinks=true` the symlink flag is
irrelevant (a matching symlinked entry is yielded like any other), and a
symlinked directory is descended into when `recursive` applies. -/
theorem symlink_policy (cwd : List String) (cfg : Config) (root : Entry)
    (rootPath p : PPath) (c : ComputeCache) (n : String)
    (cs rest : EntryList) :
    (cfg.follow_symlinks = false → root.isLink = true →
      filesImpl cwd cfg root rootPath c = some ([], c))
  ∧ (cfg.follow_symlinks = false → ∀ es,
      dirFiles cwd cfg p es c = dirFiles cwd cfg p es.filterNotLink c)
  ∧ (cfg.follow_symlinks = true →
      dirFiles cwd cfg p (.cons (.dir n true cs) rest) c =
        dirFiles cwd cfg p (.cons (.dir n false cs) rest) c)
  ∧ (cfg.follow_symlinks = true →
      dirFiles cwd cfg p (.cons (.file n true) rest) c =
        dirFiles cwd cfg p (.cons (.file n false) rest) c)
  ∧ (cfg.follow_symlinks = true → cfg.include_dir = false →
      cfg.recursive = true →
      dirFiles cwd cfg p (.cons (.dir n true cs) .nil) c =
        dirFiles cwd cfg (p.child n) cs c) := by
  refine ⟨?_, ?_, ?_, ?_, ?_⟩
  · intro hf hl
    simp [filesImpl, hf, hl]
  · intro hf es
    exact dirFiles_skip_links cwd cfg hf p es c
  · intro hf
    simp [dirFiles, hf]
  · intro hf
    simp [dirFiles, hf]
  · intro hf hi hr
    rcases hv : dirFiles cwd cfg (p.child n) cs c with _ | ⟨zs, c2⟩ <;>
      simp [dirFiles, hf, hi, hr, hv]

/-- Witness for `symlink_policy` on the test-suite tree: a symlinked root
is skipped when links are not followed, listing equals listing of the
link-free children, and a symlinked directory is descended into when
links are followed. -/
theorem symlink_policy_witness :
    filesImpl [] ⟨pTrue, true, false, false⟩ (.dir "d" true tmpDir1)
      ⟨true, ["d"]⟩ cache0 = some ([], cache0)
  ∧ dirFiles [] ⟨pTrue, true, false, false⟩ ⟨true, ["d"]⟩
      (.cons (.dir "sub" true tmpDir1) .nil) cache0 =
      dirFiles [] ⟨pTrue, true, false, false⟩ ⟨true, ["d"]⟩
        ((EntryList.cons (.dir "sub" true tmpDir1) .nil).filterNotLink) cache0
  ∧ dirFiles [] ⟨pTrue, true, false, true⟩ ⟨true, ["d"]⟩
      (.cons (.dir "sub" true tmpDir1) .nil) cache0 =
      dirFiles [] ⟨pTrue, true, false, true⟩ (PPath.child ⟨true, ["d"]⟩ "sub")
        tmpDir1 cache0 :=
  ⟨(symlink_policy [] ⟨pTrue, true, false, false⟩ (.dir "d" true tmpDir1)
      ⟨true, ["d"]⟩ ⟨true, ["d"]⟩ cache0 "sub" tmpDir1 .nil).1 rfl rfl,
   (symlink_policy [] ⟨pTrue, true, false, false⟩ (.dir "d" true tmpDir1)
      ⟨true, ["d"]⟩ ⟨true, ["d"]⟩ cache0 "sub" tmpDir1 .nil).2.1 rfl
      (.cons (.dir "sub" true tmpDir1) .nil),
   (symlink_policy [] ⟨pTrue, true, false, true⟩ (.dir "d" true tmpDir1)
      ⟨true, ["d"]⟩ ⟨true, ["d"]⟩ cache0 "sub" tmpDir1 .nil).2.2.2.2 rfl rfl rfl⟩

/-- With `recursive=false`, every path yielded by `_unsafe_dir_files` is a
direct child of the listed directory. -/
lemma dirFiles_nonrec_children (cwd : List String) (cfg : Config)
    (hrec : cfg.recursive = false) (p : PPath) :
    ∀ (es : EntryList) (c : ComputeCache) (ys : List PPath)
      (c' : ComputeCache), dirFiles cwd cfg p es c = some (ys, c') →
      ∀ y ∈ ys, ∃ n, y = p.child n
  | .nil, c, ys, c', h => by
    simp only [dirFiles, Option.some.injEq, Prod.mk.injEq] at h
    obtain ⟨h1, _⟩ := h
    subst h1
    intro y hy
    simp at hy
  | .cons (.file n lnk) rest, c, ys, c', h => by
    cases hguard : (!cfg.follow_symlinks && lnk) with
    | true =>
      simp only [dirFiles, hguard, if_true] at h
      exact dirFiles_nonrec_children cwd cfg hrec p rest c ys c' h
    | false =>
      rcases hrun : cfg.pattern.run cwd (c.reset (p.child n)) with ⟨ob, c1⟩
      cases ob with
      | none => simp [dirFiles, hguard, hrun] at h
      | some b =>
        rcases hrest : dirFiles cwd cfg p rest c1 with _ | ⟨ys0, c2⟩
        · simp [dirFiles, hguard, hrun, hrest] at h
        · simp only [dirFiles, hguard, hrun, hrest, Bool.false_eq_true,
            if_false, Option.some.injEq, Prod.mk.injEq] at h
          obtain ⟨h1, _⟩ := h
          subst h1
          intro y hy
          rcases List.mem_append.mp hy with hy1 | hy2
          · cases b with
            | true =>
              simp at hy1
              exact ⟨n, hy1⟩
            | false => simp at hy1
          · exact dirFiles_nonrec_children cwd cfg hrec p rest c1 ys0 c2
              hrest y hy2
  | .cons (.dir n lnk cs) rest, c, ys, c', h => by
    cases hguard : (!cfg.follow_symlinks && lnk) with
    | true =>
      simp only [dirFiles, hguard, if_true] at h
      exact dirFiles_nonrec_children cwd cfg hrec p rest c ys c' h
    | false =>
      cases hinc : cfg.include_dir with
      | false =>
        rcases hrest : dirFiles cwd cfg p rest c with _ | ⟨ys0, c2⟩
        · simp [dirFiles, hguard, hinc, hrec, hrest] at h
        · simp only [dirFiles, hguard, hinc, hrec, hrest, Bool.false_eq_true,
            if_false, List.nil_append, Option.some.injEq, Prod.mk.injEq] at h
          obtain ⟨h1, _⟩ := h
          subst h1
          intro y hy
          exact dirFiles_nonrec_children cwd cfg hrec p rest c ys0 c2
            hrest y hy
      | true =>
        rcases hrun : cfg.pattern.run cwd (c.reset (p.child n)) with ⟨ob, c1⟩
        cases ob with
        | none => simp [dirFiles, hguard, hinc, hrun] at h
        | some b =>
          rcases hrest : dirFiles cwd cfg p rest c1 with _ | ⟨ys0, c2⟩
          · simp [dirFiles, hguard, hinc, hrec, hrun, hrest] at h
          · simp only [dirFiles, hguard, hinc, hrec, hrun, hrest,
              Bool.false_eq_true, if_false, if_true, List.append_nil,
              List.nil_append, Option.some.injEq, Prod.mk.injEq] at h
            obtain ⟨h1, _⟩ := h
            subst h1
            intro y hy
            rcases List.mem_append.mp hy with hy1 | hy2
            · cases b with
              | true =>
                simp at hy1
                exact ⟨n, hy1⟩
              | false => simp at hy1
            · exact dirFiles_nonrec_children cwd cfg hrec p rest c1 ys0 c2
                hrest y hy2

/-- Claim C8: with `recursive=false`, every yielded entry is the root
itself or one of its direct children — listing never descends, so no
entry of depth two or more can appear in the results. -/
theorem nonrecursive_yields_depth_one (cwd : List String) (cfg : Config)
    (root : Entry) (rootPath : PPath) (c c' : ComputeCache)
    (ys : List PPath) (y : PPath) (hrec : cfg.recursive = false)
    (h : filesImpl cwd cfg root rootPath c = some (ys, c')) (hy : y ∈ ys) :
    y = rootPath ∨ ∃ n, y = rootPath.child n := by
  revert hy
  cases hguard : (!cfg.follow_symlinks && root.isLink) with
  | true =>
    simp only [filesImpl, hguard, if_true, Option.some.injEq,
      Prod.mk.injEq] at h
    obtain ⟨h1, _⟩ := h
    subst h1
    intro hy
    simp at hy
  | false =>
    cases root with
    | file rn rlnk =>
      rcases hrun : cfg.pattern.run cwd (c.reset rootPath) with ⟨ob, c1⟩
      cases ob with
      | none => simp [filesImpl, hguard, hrun] at h
      | some b =>
        simp only [filesImpl, hguard, hrun, Bool.false_eq_true, if_false,
          Option.some.injEq, Prod.mk.injEq] at h
        obtain ⟨h1, _⟩ := h
        subst h1
        intro hy
        cases b with
        | true =>
          simp at hy
          exact .inl hy
        | false => simp at hy
    | dir rn rlnk cs =>
      cases hinc : cfg.include_dir with
      | false =>
        rcases hcs : dirFiles cwd cfg rootPath cs c with _ | ⟨ys0, c2⟩
        · simp [filesImpl, hguard, hinc, hcs] at h
        · simp only [filesImpl, hguard, hinc, hcs, Bool.false_eq_true,
            if_false, List.nil_append, Option.some.injEq, Prod.mk.injEq] at h
          obtain ⟨h1, _⟩ := h
          subst h1
          intro hy
          exact .inr (dirFiles_nonrec_children cwd cfg hrec rootPath cs c
            ys0 c2 hcs y hy)
      | true =>
        rcases hrun : cfg.pattern.run cwd (c.reset rootPath) with ⟨ob, c1⟩
        cases ob with
        | none => simp [filesImpl, hguard, hinc, hrun] at h
        | some b =>
          rcases hcs : dirFiles cwd cfg rootPath cs c1 with _ | ⟨ys0, c2⟩
          · simp [filesImpl, hguard, hinc, hrun, hcs] at h
          · simp only [filesImpl, hguard, hinc, hrun, hcs,
              Bool.false_eq_true, if_false, if_true, Option.some.injEq,
              Prod.mk.injEq] at h
            obtain ⟨h1, _⟩ := h
            subst h1
            intro hy
            rcases List.mem_append.mp hy with hy1 | hy2
            · cases b with
              | true =>
                simp at hy1
                exact .inl hy1
              | false => simp at hy1
            · exact .inr (dirFiles_nonrec_children cwd cfg hrec rootPath cs
                c1 ys0 c2 hcs y hy2)

/-- Witness for `nonrecursive_yields_depth_one` on the test-suite tree. -/
theorem nonrecursive_yields_depth_one_witness :
    PPath.child ⟨true, ["tmp"]⟩ "file1.py" = ⟨true, ["tmp"]⟩ ∨
      ∃ n, PPath.child ⟨true, ["tmp"]⟩ "file1.py" =
        PPath.child ⟨true, ["tmp"]⟩ n :=
  nonrecursive_yields_depth_one [] ⟨pTrue, false, false, true⟩ tmpRoot
    ⟨true, ["tmp"]⟩ ⟨⟨true, ["tmp"]⟩, none, none⟩
    ⟨⟨true, ["tmp", "file2.txt"]⟩, none, none⟩
    [⟨true, ["tmp", "file1.py"]⟩, ⟨true, ["tmp", "file2.txt"]⟩]
    (PPath.child ⟨true, ["tmp"]⟩ "file1.py") rfl (by decide) (by decide)
